import Mathlib

/-!
Shallow embedding of the babycare day-simulator (`start.py`).

Modelling conventions:
* `datetime` values and `timedelta` values are whole numbers of minutes
  (`Time`, `ℤ`); a calendar day is `24 * 60` minutes and `timedelta(days=1)`
  is `+ (24 * 60)`.  Every duration in the program is a whole number of
  minutes; the one real-valued quantity, the normal draw, enters only
  through an order comparison, so integer-valued draws are faithful for
  every property below.
* Console logging (`log_event`, `log_message`) is pure output with no effect
  on program state, so it is not modelled.
* `np.random.normal` is modelled as an oracle: the stream of drawn interval
  values (in minutes) is threaded through the state as `draws : ℕ → ℤ`
  together with an index; each draw consumes one stream element.
* Python `assert` failures (and the `IndexError` of indexing an empty list)
  are modelled by returning `none`; a normal return is `some`.
* Python objects are mutable and aliased (the scheduler's heap, waiting list
  and `_ongoing_event` all hold references to the same `Event` objects), so
  the manager state stores events in a map `ℕ → Event` and the collections
  hold event ids.
-/

namespace Babycare

/-- Timestamps and durations, in minutes (`datetime` / `timedelta`). -/
abbrev Time := ℤ

/-- Status enum of `start.py` (`class EventStatus(Enum)`). -/
inductive EventStatus
  | PENDING
  | READY
  | RUNNING
  | PAUSED
  | COMPLETED
deriving DecidableEq, Repr

/-- State of `class Baby`: `_last_fed` and the drawn `_interval`.
The fixed distribution parameters (mean 180 min, stdev 30 min) only feed the
random draw, which is modelled as an oracle input. -/
structure Baby where
  last_fed : Time
  interval : ℤ
deriving DecidableEq, Repr

/-- `Baby.fed`: record the feeding time and draw a fresh interval
(`np.random.normal(180, 30)` minutes); the drawn value is the oracle
argument `draw`, stored without any clamping. -/
def Baby.fed (_b : Baby) (current_time : Time) (draw : ℤ) : Baby :=
  { last_fed := current_time, interval := draw }

/-- `Baby.__init__`: immediately calls `fed(current_time)`. -/
def mkBaby (current_time : Time) (draw : ℤ) : Baby :=
  Baby.fed { last_fed := current_time, interval := 0 } current_time draw

/-- `Baby.is_hungry`: `current_time - self._last_fed >= self._interval`. -/
def Baby.is_hungry (b : Baby) (current_time : Time) : Bool :=
  decide (current_time - b.last_fed ≥ b.interval)

/-- Counters of `class DailyReporter` (printing is not modelled). -/
structure DailyReporter where
  freetime : ℤ
  feeding_count : ℕ
  intervention_count : ℕ
deriving DecidableEq, Repr

/-- `DailyReporter.__init__` / `_reset`. -/
def DailyReporter.init : DailyReporter :=
  { freetime := 0, feeding_count := 0, intervention_count := 0 }

def DailyReporter.update_freetime (r : DailyReporter) (duration : ℤ) : DailyReporter :=
  { r with freetime := r.freetime + duration }

def DailyReporter.update_feeding (r : DailyReporter) : DailyReporter :=
  { r with feeding_count := r.feeding_count + 1 }

def DailyReporter.update_intervention (r : DailyReporter) : DailyReporter :=
  { r with intervention_count := r.intervention_count + 1 }

/-- `DailyReporter.try_print`: at the last step of a day the summary is
printed and the counters reset.  Day boundaries fall at multiples of
`24 * 60` minutes. -/
def DailyReporter.try_print (r : DailyReporter) (now : Time) (step : ℤ) : DailyReporter :=
  if now / (24 * 60) ≠ (now + step) / (24 * 60) then DailyReporter.init else r

/-- The closed set of concrete `Event` subclasses of `start.py`.
`meal`, `sleep` and `laundry` are the `DailyEvent` subclasses. -/
inductive EventKind
  | airer
  | milkFeeding
  | meal
  | sleep
  | laundry
deriving DecidableEq, Repr

/-- Daily-scheduled kinds, i.e. the `DailyEvent` subclasses. -/
def EventKind.isDaily : EventKind → Bool
  | .meal => true
  | .sleep => true
  | .laundry => true
  | _ => false

/-- One `Event` object.  The common fields come from `Event.__init__`
(`_priority`, `_status`, `_time_elapsed`); the remaining fields belong to the
individual subclasses and are unused (and never read) by the other kinds:
`prep_duration`/`eating_duration`/`cleanup_duration` are the `Meal` phases,
`next_schedule` is the `DailyEvent` due timestamp, `schedule` is the
`Airer` arming timestamp, and `airer_event` is the id of the `Airer` object
referenced by `Laundry._airer_event`. -/
structure Event where
  kind : EventKind
  priority : ℤ
  status : EventStatus
  time_elapsed : ℤ
  prep_duration : ℤ
  eating_duration : ℤ
  cleanup_duration : ℤ
  next_schedule : Time
  schedule : Option Time
  airer_event : ℕ
deriving DecidableEq, Repr

/-- Total required duration of each kind, as computed in the constructors:
`Airer` hangs 10 and holds 20; `MilkFeeding` is 10 + 30 + 5;
`Meal` sums its three phases; `Sleep` lasts 8 hours; `Laundry` takes 10. -/
def Event.duration (e : Event) : ℤ :=
  match e.kind with
  | .airer => 10 + 20
  | .milkFeeding => 10 + 30 + 5
  | .meal => e.prep_duration + e.eating_duration + e.cleanup_duration
  | .sleep => 8 * 60
  | .laundry => 10

/-- Statuses accepted by the `process` assertion of `Airer`, `Meal`,
`Sleep` and `Laundry`. -/
def statusProcessable (s : EventStatus) : Bool :=
  s = EventStatus.READY ∨ s = EventStatus.RUNNING ∨ s = EventStatus.PAUSED

/-- `is_ready` of each kind.  `Airer.is_ready` and `DailyEvent.is_ready`
assert `PENDING` first; `MilkFeeding.is_ready` has no assertion and polls
the baby. -/
def Event.is_ready (e : Event) (baby : Baby) (now : Time) : Option (Event × Bool) :=
  match e.kind with
  | .airer =>
    if e.status = EventStatus.PENDING then
      match e.schedule with
      | none => some (e, false)
      | some sched =>
        if now ≥ sched then some ({ e with status := EventStatus.READY }, true)
        else some (e, false)
    else none
  | .milkFeeding =>
    if baby.is_hungry now then some ({ e with status := EventStatus.READY }, true)
    else some (e, false)
  | _ =>
    if e.status = EventStatus.PENDING then
      if now ≥ e.next_schedule then some ({ e with status := EventStatus.READY }, true)
      else some (e, false)
    else none

/-- Side effects a `process` call performs on objects other than the event
itself: `Laundry` arms the airer (`notify_washing`), `MilkFeeding` feeds the
baby and reports a feeding. -/
structure Effects where
  arm_airer : Option (ℕ × Time)
  baby_fed_at : Option Time
  feeding_reported : Bool
deriving DecidableEq, Repr

/-- No side effects. -/
def Effects.nil : Effects :=
  { arm_airer := none, baby_fed_at := none, feeding_reported := false }

/-- `process` of each kind, returning the updated event and its external
effects.

* `MilkFeeding.process` has no status assertion and uses four independent
  `if`s on `_time_elapsed`; it reports a feeding at 10 + 30, and at the full
  duration 45 feeds the baby at `now + step` and completes.  It never sets
  `RUNNING`.
* `Airer.process` asserts, advances, sets `RUNNING`, and uses independent
  `if`s, completing exactly when `_time_elapsed == 30`.
* `Meal.process`, `Sleep.process` and `Laundry.process` assert, advance, set
  `RUNNING`, and use an `if/elif` chain, so the completion branch is reached
  only when no earlier branch of the chain fired; `Laundry` additionally
  calls `notify_washing(now + step + 120)` on its airer when completing. -/
def Event.process (e : Event) (now : Time) (step : ℤ) : Option (Event × Effects) :=
  match e.kind with
  | .milkFeeding =>
    let el := e.time_elapsed + step
    some ({ e with
              time_elapsed := el,
              status := if el = 10 + 30 + 5 then EventStatus.COMPLETED else e.status },
          { arm_airer := none,
            baby_fed_at := if el = 10 + 30 + 5 then some (now + step) else none,
            feeding_reported := decide (el = 10 + 30) })
  | .airer =>
    if statusProcessable e.status then
      let el := e.time_elapsed + step
      some ({ e with
                time_elapsed := el,
                status := if el = 10 + 20 then EventStatus.COMPLETED
                          else EventStatus.RUNNING },
            Effects.nil)
    else none
  | .meal =>
    if statusProcessable e.status then
      let el := e.time_elapsed + step
      if el = e.duration ∧ el ≠ step ∧ el ≠ e.prep_duration ∧
          el ≠ e.prep_duration + e.eating_duration then
        some ({ e with time_elapsed := el, status := EventStatus.COMPLETED }, Effects.nil)
      else
        some ({ e with time_elapsed := el, status := EventStatus.RUNNING }, Effects.nil)
    else none
  | .sleep =>
    if statusProcessable e.status then
      let el := e.time_elapsed + step
      if el = 8 * 60 ∧ el ≠ step then
        some ({ e with time_elapsed := el, status := EventStatus.COMPLETED }, Effects.nil)
      else
        some ({ e with time_elapsed := el, status := EventStatus.RUNNING }, Effects.nil)
    else none
  | .laundry =>
    if statusProcessable e.status then
      let el := e.time_elapsed + step
      if el = 10 ∧ el ≠ step then
        some ({ e with time_elapsed := el, status := EventStatus.COMPLETED },
              { arm_airer := some (e.airer_event, now + step + 120),
                baby_fed_at := none, feeding_reported := false })
      else
        some ({ e with time_elapsed := el, status := EventStatus.RUNNING }, Effects.nil)
    else none

/-- `pause` of each kind: `MilkFeeding.pause` is `pass`; every other kind
asserts `RUNNING` and moves to `PAUSED`.  (The `now` argument of the source
is used only for logging and is dropped.) -/
def Event.pause (e : Event) : Option Event :=
  match e.kind with
  | .milkFeeding => some e
  | _ =>
    if e.status = EventStatus.RUNNING then some { e with status := EventStatus.PAUSED }
    else none

/-- `finalize` of each kind: `MilkFeeding.finalize` has no assertion and
unconditionally resets; `Airer.finalize` asserts `COMPLETED`, resets and
disarms; `DailyEvent.finalize` asserts `COMPLETED`, resets and advances the
schedule by one day. -/
def Event.finalize (e : Event) : Option Event :=
  match e.kind with
  | .milkFeeding =>
    some { e with status := EventStatus.PENDING, time_elapsed := 0 }
  | .airer =>
    if e.status = EventStatus.COMPLETED then
      some { e with status := EventStatus.PENDING, time_elapsed := 0, schedule := none }
    else none
  | _ =>
    if e.status = EventStatus.COMPLETED then
      some { e with status := EventStatus.PENDING, time_elapsed := 0,
                    next_schedule := e.next_schedule + 24 * 60 }
    else none

/-- Field values shared by every constructor (`Event.__init__`); the
kind-specific fields default to inert values and are overridden by the
individual constructors below. -/
def defaultEvent : Event :=
  { kind := EventKind.meal, priority := 0, status := EventStatus.PENDING,
    time_elapsed := 0, prep_duration := 0, eating_duration := 0,
    cleanup_duration := 0, next_schedule := 0, schedule := none, airer_event := 0 }

/-- `Airer.__init__`: priority 5, un-armed. -/
def mkAirer : Event :=
  { defaultEvent with kind := EventKind.airer, priority := 5 }

/-- `MilkFeeding.__init__`: priority 0. -/
def mkMilkFeeding : Event :=
  { defaultEvent with kind := EventKind.milkFeeding, priority := 0 }

/-- `Meal.__init__`: a `DailyEvent` with three phase durations.
`first_schedule` is the initial `_next_schedule` computed by
`DailyEvent.__init__` from the start time and the daily schedule. -/
def mkMeal (first_schedule : Time) (priority : ℤ) (d0 d1 d2 : ℤ) : Event :=
  { defaultEvent with
    kind := EventKind.meal, priority := priority,
    prep_duration := d0, eating_duration := d1, cleanup_duration := d2,
    next_schedule := first_schedule }

/-- `Sleep.__init__`: priority 5, daily at 23:00. -/
def mkSleep (first_schedule : Time) : Event :=
  { defaultEvent with
    kind := EventKind.sleep, priority := 5,
    next_schedule := first_schedule }

/-- `Laundry.__init__`: priority 5, daily at 09:00, holding a reference to
the airer event it notifies. -/
def mkLaundry (first_schedule : Time) (airer_id : ℕ) : Event :=
  { defaultEvent with
    kind := EventKind.laundry, priority := 5,
    next_schedule := first_schedule, airer_event := airer_id }

/-- One entry of `EventManager._event_queue`:
`(event.priority, admission count, event id)`.  Python compares these tuples
lexicographically; the count is unique so the event itself is never compared. -/
abbrev Entry := ℤ × ℕ × ℕ

/-- Strict lexicographic order on the `(priority, count)` part of an entry. -/
def keyLt (a b : Entry) : Bool :=
  decide (a.1 < b.1) || (decide (a.1 = b.1) && decide (a.2.1 < b.2.1))

/-- `heapq.heappush`: the queue is modelled as the multiset of its entries,
so pushing appends; all reads go through `heapTop`, the minimum. -/
def heapPush (q : List Entry) (e : Entry) : List Entry :=
  q ++ [e]

/-- The contract of `heapq`: `queue[0]` is a smallest entry.  On (impossible,
counts are unique) key ties the earliest entry is chosen. -/
def heapTop : List Entry → Option Entry
  | [] => none
  | e :: rest =>
    match heapTop rest with
    | none => some e
    | some m => if keyLt m e then some m else some e

/-- `heapq.heappop`: remove the smallest entry (the one `heapTop` returns). -/
def heapPop (q : List Entry) : List Entry :=
  match heapTop q with
  | none => q
  | some t => q.erase t

/-- State of `class EventManager` together with the objects it references
(the event arena, the baby, the reporter) and the random oracle. -/
structure EventManager where
  count : ℕ
  events_to_check : List ℕ
  event_queue : List Entry
  ongoing_event : Option ℕ
  events : ℕ → Event
  baby : Baby
  reporter : DailyReporter
  draws : ℕ → ℤ
  draw_idx : ℕ

/-- Point update of the event arena. -/
def updE (f : ℕ → Event) (i : ℕ) (v : Event) : ℕ → Event :=
  fun j => if j = i then v else f j

/-- `EventManager.add_event`. -/
def add_event (m : EventManager) (eid : ℕ) (e : Event) : EventManager :=
  { m with events := updE m.events eid e,
           events_to_check := m.events_to_check ++ [eid] }

/-- The `for event in self._events_to_check:` loop of
`EventManager._check_conditions`.  Python's list iterator keeps a bare index
into the list, and the body removes the current element from that same list
when it is ready, so the element that slides into the removed slot is
skipped; this loop reproduces that behaviour exactly: `idx` is the
iterator's index into the current (mutated) list.  `fuel` bounds the
iteration count; `events_to_check.length` is always enough fuel because the
index grows by one per iteration and the list never grows. -/
def checkLoop (now : Time) : ℕ → EventManager → ℕ → Option EventManager
  | 0, m, _ => some m
  | fuel + 1, m, idx =>
    if h : idx < m.events_to_check.length then
      let eid := m.events_to_check[idx]
      match (m.events eid).is_ready m.baby now with
      | none => none
      | some (e', ready) =>
        let m1 := { m with events := updE m.events eid e' }
        if ready then
          checkLoop now fuel
            { m1 with
              event_queue := heapPush m1.event_queue ((m.events eid).priority, m.count, eid),
              events_to_check := m1.events_to_check.erase eid,
              count := m.count + 1 }
            (idx + 1)
        else
          checkLoop now fuel m1 (idx + 1)
    else some m

/-- `EventManager._check_conditions`: sweep the waiting list, then either
report one `step` of free time (queue empty) or report that the queue is
non-empty. -/
def check_conditions (m : EventManager) (now : Time) (step : ℤ) :
    Option (EventManager × Bool) :=
  match checkLoop now m.events_to_check.length m 0 with
  | none => none
  | some m' =>
    if m'.event_queue.length = 0 then
      some ({ m' with reporter := m'.reporter.update_freetime step }, false)
    else
      some (m', true)

/-- The preemption step of `EventManager._process_next_event`:
`if type(event) != type(self._ongoing_event) and self._ongoing_event != None`
pauses the old ongoing event and reports an intervention.  `eid` is the id
of the head entry. -/
def pausePrevious (m : EventManager) (eid : ℕ) : Option EventManager :=
  match m.ongoing_event with
  | none => some m
  | some oid =>
    if (m.events eid).kind ≠ (m.events oid).kind then
      match (m.events oid).pause with
      | none => none
      | some p =>
        some { m with events := updE m.events oid p,
                      reporter := m.reporter.update_intervention }
    else some m

/-- Apply the external effects of a `process` call: `notify_washing` on the
airer, `reporter.update_feeding`, and `baby.fed` (which consumes one oracle
draw). -/
def applyEffects (m : EventManager) (eff : Effects) : EventManager :=
  let m1 :=
    match eff.arm_airer with
    | none => m
    | some (aid, sched) =>
      { m with events := updE m.events aid { m.events aid with schedule := some sched } }
  let m2 :=
    if eff.feeding_reported then { m1 with reporter := m1.reporter.update_feeding } else m1
  match eff.baby_fed_at with
  | none => m2
  | some t =>
    { m2 with baby := m2.baby.fed t (m2.draws m2.draw_idx), draw_idx := m2.draw_idx + 1 }

/-- First half of `EventManager._process_next_event`: read the head entry
(`self._event_queue[0]`; `none` on an empty queue models the `IndexError`),
pause the previous ongoing event if its type differs, mark the head as
ongoing and process it for one step.  Returns the new state and the head's
event id. -/
def advanceHead (m : EventManager) (now : Time) (step : ℤ) :
    Option (EventManager × ℕ) :=
  match heapTop m.event_queue with
  | none => none
  | some t =>
    match pausePrevious m t.2.2 with
    | none => none
    | some m1 =>
      let m2 := { m1 with ongoing_event := some t.2.2 }
      match (m2.events t.2.2).process now step with
      | none => none
      | some (e', eff) =>
        some (applyEffects { m2 with events := updE m2.events t.2.2 e' } eff, t.2.2)

/-- Second half of `EventManager._process_next_event`: if the processed head
is `COMPLETED`, clear the ongoing marker, pop it from the queue, finalize it
and append it back to the waiting list. -/
def retire (m : EventManager) (eid : ℕ) : Option EventManager :=
  if (m.events eid).status = EventStatus.COMPLETED then
    match heapTop m.event_queue with
    | none => none
    | some t =>
      match (m.events t.2.2).finalize with
      | none => none
      | some f =>
        some { m with ongoing_event := none,
                      event_queue := heapPop m.event_queue,
                      events := updE m.events t.2.2 f,
                      events_to_check := m.events_to_check ++ [t.2.2] }
  else some m

/-- `EventManager._process_next_event` in full. -/
def process_next_event (m : EventManager) (now : Time) (step : ℤ) :
    Option EventManager :=
  match advanceHead m now step with
  | none => none
  | some (m', eid) => retire m' eid

/-- `EventManager.process`: one tick. -/
def EventManager.process (m : EventManager) (now : Time) (step : ℤ) :
    Option EventManager :=
  match check_conditions m now step with
  | none => none
  | some (m', false) => some m'
  | some (m', true) => process_next_event m' now step

/-- The driver loop of `main()`: `n` ticks of `event_manager.process`
followed by `reporter.try_print`, advancing `now` by `step` each tick. -/
def runTicks : EventManager → Time → ℤ → ℕ → Option EventManager
  | m, _, _, 0 => some m
  | m, now, step, n + 1 =>
    match m.process now step with
    | none => none
    | some m' =>
      runTicks { m' with reporter := m'.reporter.try_print now step } (now + step) step n

/-- The initial configuration built by `main()`: start time 2023-04-02
07:00 (minute 420 of day 0), breakfast/lunch/dinner, airer, laundry, milk
feeding and sleep, with the baby constructed (and so first fed) at the start
time using the first oracle draw.  Event ids follow the insertion order of
`events` in `main()`. -/
def mainManager (draws : ℕ → ℤ) : EventManager :=
  let add := fun (m : EventManager) (p : ℕ × Event) => add_event m p.1 p.2
  [(0, mkMeal (8 * 60) 5 15 10 10),
   (1, mkMeal (12 * 60) 5 30 15 10),
   (2, mkMeal (18 * 60) 5 45 30 15),
   (3, mkAirer),
   (4, mkLaundry (9 * 60) 3),
   (5, mkMilkFeeding),
   (6, mkSleep (23 * 60))].foldl add
    { count := 0, events_to_check := [], event_queue := [], ongoing_event := none,
      events := fun _ => defaultEvent, baby := mkBaby (7 * 60) (draws 0),
      reporter := DailyReporter.init, draws := draws, draw_idx := 1 }

/-- An event is never observed `RUNNING` or `PAUSED` — the invariant that
holds for the milk-feeding event. -/
def MilkOk (e : Event) : Prop :=
  e.kind = EventKind.milkFeeding →
    e.status ≠ EventStatus.RUNNING ∧ e.status ≠ EventStatus.PAUSED

/-- Every milk-feeding event in the arena is outside `RUNNING`/`PAUSED`. -/
def MilkInactive (m : EventManager) : Prop :=
  ∀ i, MilkOk (m.events i)

theorem Event.is_ready_spec (e : Event) (b : Baby) (now : Time) (e' : Event) (r : Bool)
    (h : e.is_ready b now = some (e', r)) :
    e'.time_elapsed = e.time_elapsed ∧ e'.kind = e.kind ∧ e'.priority = e.priority ∧
      (e'.status = e.status ∨ e'.status = EventStatus.READY) := by
  obtain ⟨kind, prio, status, el, p1, p2, p3, ns, sched, aid⟩ := e
  cases kind
  case airer =>
    cases sched <;> simp only [Event.is_ready] at h <;> split_ifs at h <;>
      simp at h <;> obtain ⟨rfl, rfl⟩ := h <;> simp
  all_goals
    simp only [Event.is_ready] at h
    split_ifs at h <;> simp at h <;> obtain ⟨rfl, rfl⟩ := h <;> simp

theorem Event.process_spec (e : Event) (now : Time) (step : ℤ) (e' : Event) (eff : Effects)
    (h : e.process now step = some (e', eff)) :
    e'.time_elapsed = e.time_elapsed + step ∧ e'.kind = e.kind ∧
      (e.kind ≠ EventKind.milkFeeding →
        e'.status = EventStatus.RUNNING ∨ e'.status = EventStatus.COMPLETED) ∧
      (e.kind = EventKind.milkFeeding →
        e'.status = e.status ∨ e'.status = EventStatus.COMPLETED) := by
  obtain ⟨kind, prio, status, el, p1, p2, p3, ns, sched, aid⟩ := e
  cases kind <;> simp only [Event.process] at h
  case milkFeeding =>
    simp at h
    obtain ⟨rfl, rfl⟩ := h
    refine ⟨by simp, by simp, by simp, ?_⟩
    intro
    split_ifs <;> simp
  all_goals
    split_ifs at h <;> simp at h <;> obtain ⟨rfl, rfl⟩ := h <;> simp

theorem Event.pause_spec (e : Event) (p : Event)
    (h : e.pause = some p) :
    p.time_elapsed = e.time_elapsed ∧ p.kind = e.kind ∧
      (e.kind = EventKind.milkFeeding → p = e) ∧
      (e.kind ≠ EventKind.milkFeeding →
        e.status = EventStatus.RUNNING ∧ p.status = EventStatus.PAUSED) := by
  obtain ⟨kind, prio, status, el, p1, p2, p3, ns, sched, aid⟩ := e
  cases kind <;> simp only [Event.pause] at h
  case milkFeeding =>
    obtain rfl := Option.some.inj h
    simp
  all_goals
    split_ifs at h with hs <;> simp at h <;> subst h <;> simp [hs]

theorem Event.finalize_spec (e : Event) (f : Event)
    (h : e.finalize = some f) :
    f.time_elapsed = 0 ∧ f.status = EventStatus.PENDING ∧ f.kind = e.kind ∧
      (e.kind.isDaily = true → f.next_schedule = e.next_schedule + 24 * 60) := by
  obtain ⟨kind, prio, status, el, p1, p2, p3, ns, sched, aid⟩ := e
  cases kind <;> simp only [Event.finalize] at h
  case milkFeeding =>
    obtain rfl := Option.some.inj h
    simp [EventKind.isDaily]
  all_goals
    split_ifs at h with hs <;> simp at h <;> subst h <;> simp [hs, EventKind.isDaily]

theorem Event.is_ready_milkOk (e : Event) (b : Baby) (now : Time) (e' : Event) (r : Bool)
    (h : e.is_ready b now = some (e', r)) (hok : MilkOk e) : MilkOk e' := by
  obtain ⟨-, hkind, -, hst⟩ := Event.is_ready_spec e b now e' r h
  intro hk
  rcases hst with hst | hst <;> rw [hst] <;> simp_all [MilkOk]

theorem Event.process_milkOk (e : Event) (now : Time) (step : ℤ) (e' : Event) (eff : Effects)
    (h : e.process now step = some (e', eff)) (hok : MilkOk e) : MilkOk e' := by
  obtain ⟨-, hkind, hnp, hmilk⟩ := Event.process_spec e now step e' eff h
  intro hk
  rw [hkind] at hk
  rcases hmilk hk with hst | hst
  · rw [hst]; exact hok hk
  · rw [hst]; exact ⟨by simp, by simp⟩

theorem Event.pause_milkOk (e : Event) (p : Event)
    (h : e.pause = some p) (hok : MilkOk e) : MilkOk p := by
  obtain ⟨-, hkind, hmilk, hother⟩ := Event.pause_spec e p h
  intro hk
  rw [hkind] at hk
  by_cases hm : e.kind = EventKind.milkFeeding
  · rw [hmilk hm]; exact hok hk
  · exact absurd hk hm

theorem Event.finalize_milkOk (e : Event) (f : Event)
    (h : e.finalize = some f) : MilkOk f := by
  obtain ⟨-, hst, -, -⟩ := Event.finalize_spec e f h
  intro hk
  rw [hst]
  exact ⟨by simp, by simp⟩

theorem updE_same (f : ℕ → Event) (i : ℕ) (v : Event) : updE f i v i = v := by
  simp [updE]

theorem updE_other (f : ℕ → Event) (i j : ℕ) (v : Event) (h : j ≠ i) :
    updE f i v j = f j := by
  simp [updE, h]

theorem milkInactive_updE {m : EventManager} (hm : MilkInactive m)
    {i : ℕ} {v : Event} (hv : MilkOk v) (f : ℕ → Event) (hf : f = updE m.events i v) :
    ∀ j, MilkOk (f j) := by
  intro j
  subst hf
  unfold updE
  split_ifs
  · exact hv
  · exact hm j

/-- Facts preserved across the readiness sweep: the sweep never touches
elapsed time, status-free collaborator state, or the milk invariant. -/
theorem checkLoop_spec (now : Time) (fuel : ℕ) :
    ∀ (m : EventManager) (idx : ℕ) (m' : EventManager),
      checkLoop now fuel m idx = some m' →
      (∀ i, (m'.events i).time_elapsed = (m.events i).time_elapsed) ∧
        m'.reporter = m.reporter ∧ m'.ongoing_event = m.ongoing_event ∧
        m'.baby = m.baby ∧ m'.draws = m.draws ∧ m'.draw_idx = m.draw_idx ∧
        (MilkInactive m → MilkInactive m') := by
  induction fuel with
  | zero =>
    intro m idx m' h
    obtain rfl := Option.some.inj h
    exact ⟨fun _ => rfl, rfl, rfl, rfl, rfl, rfl, fun hm => hm⟩
  | succ fuel ih =>
    intro m idx m' h
    simp only [checkLoop] at h
    split at h
    · rename_i hlt
      rcases hr : (m.events m.events_to_check[idx]).is_ready m.baby now with
        _ | ⟨e', ready⟩ <;> rw [hr] at h
      · exact absurd h (by simp)
      · obtain ⟨hel, -, -, -⟩ :=
          Event.is_ready_spec _ _ _ _ _ hr
        have hok : MilkOk (m.events m.events_to_check[idx]) → MilkOk e' :=
          Event.is_ready_milkOk _ _ _ _ _ hr
        cases ready
        · simp only [Bool.false_eq_true, if_false] at h
          obtain ⟨h1, h2, h3, h4, h5, h6, h7⟩ := ih _ _ _ h
          refine ⟨?_, h2, h3, h4, h5, h6, ?_⟩
          · intro i
            rw [h1 i]
            by_cases hi : i = m.events_to_check[idx]
            · subst hi; simp [updE, hel]
            · simp [updE, hi]
          · intro hm
            refine h7 ?_
            exact milkInactive_updE hm (hok (hm _)) _ rfl
        · simp only [if_true] at h
          obtain ⟨h1, h2, h3, h4, h5, h6, h7⟩ := ih _ _ _ h
          refine ⟨?_, h2, h3, h4, h5, h6, ?_⟩
          · intro i
            rw [h1 i]
            by_cases hi : i = m.events_to_check[idx]
            · subst hi; simp [updE, hel]
            · simp [updE, hi]
          · intro hm
            refine h7 ?_
            exact milkInactive_updE hm (hok (hm _)) _ rfl
    · obtain rfl := Option.some.inj h
      exact ⟨fun _ => rfl, rfl, rfl, rfl, rfl, rfl, fun hm => hm⟩

theorem MilkOk.congr {e e' : Event} (hk : e'.kind = e.kind) (hs : e'.status = e.status)
    (h : MilkOk e) : MilkOk e' := by
  intro hkind
  rw [hk] at hkind
  rw [hs]
  exact h hkind

/-- Effects application only touches the airer schedule field, the feeding
counter, the baby, and the draw index. -/
theorem applyEffects_spec (m : EventManager) (eff : Effects) :
    (∀ i, ((applyEffects m eff).events i).time_elapsed = (m.events i).time_elapsed) ∧
      (∀ i, ((applyEffects m eff).events i).status = (m.events i).status) ∧
      (∀ i, ((applyEffects m eff).events i).kind = (m.events i).kind) ∧
      (applyEffects m eff).reporter.freetime = m.reporter.freetime ∧
      (applyEffects m eff).reporter.intervention_count = m.reporter.intervention_count ∧
      (applyEffects m eff).events_to_check = m.events_to_check ∧
      (applyEffects m eff).event_queue = m.event_queue ∧
      (applyEffects m eff).ongoing_event = m.ongoing_event ∧
      (applyEffects m eff).count = m.count := by
  obtain ⟨arm, fed, rep⟩ := eff
  rcases arm with _ | ⟨aid, sched⟩ <;> rcases fed with _ | t <;> cases rep <;>
    simp [applyEffects, updE, DailyReporter.update_feeding] <;>
    and_intros <;> intro i <;> split_ifs <;> simp_all

theorem applyEffects_milk (m : EventManager) (eff : Effects)
    (hm : MilkInactive m) : MilkInactive (applyEffects m eff) := by
  obtain ⟨h1, h2, h3, -⟩ := applyEffects_spec m eff
  intro i
  exact MilkOk.congr (h3 i) (h2 i) (hm i)

/-- Facts about the preemption step: it only pauses the old ongoing event
and bumps the intervention counter. -/
theorem pausePrevious_spec (m : EventManager) (eid : ℕ) (m1 : EventManager)
    (h : pausePrevious m eid = some m1) :
    m1.count = m.count ∧ m1.events_to_check = m.events_to_check ∧
      m1.event_queue = m.event_queue ∧ m1.ongoing_event = m.ongoing_event ∧
      m1.baby = m.baby ∧ m1.draws = m.draws ∧ m1.draw_idx = m.draw_idx ∧
      m1.reporter.freetime = m.reporter.freetime ∧
      (∀ i, (m1.events i).time_elapsed = (m.events i).time_elapsed) ∧
      (∀ i, (m1.events i).kind = (m.events i).kind) ∧
      (MilkInactive m → MilkInactive m1) := by
  unfold pausePrevious at h
  split at h
  · obtain rfl := Option.some.inj h
    exact ⟨rfl, rfl, rfl, rfl, rfl, rfl, rfl, rfl, fun _ => rfl, fun _ => rfl, fun hm => hm⟩
  · rename_i oid hoid
    split_ifs at h
    · rcases hp : (m.events oid).pause with _ | p <;> rw [hp] at h
      · exact absurd h (by simp)
      · obtain rfl := Option.some.inj h
        obtain ⟨hel, hkind, -, -⟩ := Event.pause_spec _ _ hp
        have hok : MilkOk (m.events oid) → MilkOk p := Event.pause_milkOk _ _ hp
        refine ⟨rfl, rfl, rfl, rfl, rfl, rfl, rfl, rfl, ?_, ?_, ?_⟩
        · intro i
          simp only [updE]
          split_ifs with hi
          · subst hi; exact hel
          · rfl
        · intro i
          simp only [updE]
          split_ifs with hi
          · subst hi; exact hkind
          · rfl
        · intro hm
          exact milkInactive_updE hm (hok (hm oid)) _ rfl
    · obtain rfl := Option.some.inj h
      exact ⟨rfl, rfl, rfl, rfl, rfl, rfl, rfl, rfl, fun _ => rfl, fun _ => rfl, fun hm => hm⟩

/-- Inversion of `advanceHead`: how a successful call decomposes. -/
theorem advanceHead_inv (m : EventManager) (now : Time) (step : ℤ)
    (m2 : EventManager) (eid : ℕ)
    (h : advanceHead m now step = some (m2, eid)) :
    ∃ t, heapTop m.event_queue = some t ∧ eid = t.2.2 ∧
      ∃ m1, pausePrevious m t.2.2 = some m1 ∧
        ∃ e' eff, (m1.events t.2.2).process now step = some (e', eff) ∧
          m2 = applyEffects
            { m1 with ongoing_event := some t.2.2,
                      events := updE m1.events t.2.2 e' } eff := by
  simp only [advanceHead] at h
  split at h
  · exact absurd h (by simp)
  · rename_i t ht
    split at h
    · exact absurd h (by simp)
    · rename_i m1 hp
      split at h
      · exact absurd h (by simp)
      · rename_i pr e' eff hpr
        obtain ⟨h1, h2⟩ := Prod.mk.injEq .. ▸ Option.some.inj h
        subst h2
        exact ⟨t, ht, rfl, m1, hp, e', eff, hpr, h1.symm⟩

/-- Facts about one head-advance: the head's elapsed time grows by exactly
`step`, everything else keeps its elapsed time, no free time is reported and
the queue and waiting list are untouched. -/
theorem advanceHead_spec (m : EventManager) (now : Time) (step : ℤ)
    (m2 : EventManager) (eid : ℕ)
    (h : advanceHead m now step = some (m2, eid)) :
    (∃ t, heapTop m.event_queue = some t ∧ t.2.2 = eid) ∧
      (m2.events eid).time_elapsed = (m.events eid).time_elapsed + step ∧
      (∀ i, i ≠ eid → (m2.events i).time_elapsed = (m.events i).time_elapsed) ∧
      m2.reporter.freetime = m.reporter.freetime ∧
      m2.event_queue = m.event_queue ∧
      m2.events_to_check = m.events_to_check ∧
      (MilkInactive m → MilkInactive m2) := by
  obtain ⟨t, ht, rfl, m1, hp, e', eff, hpr, rfl⟩ := advanceHead_inv m now step m2 eid h
  obtain ⟨-, hchk1, hq1, -, -, -, -, hfree1, hel1, -, hmilk1⟩ := pausePrevious_spec m t.2.2 m1 hp
  obtain ⟨hel2, -, -, hmilk2⟩ := Event.process_spec _ now step e' eff hpr
  obtain ⟨ha1, ha2, ha3, ha4, ha5, ha6, ha7, ha8, ha9⟩ := applyEffects_spec _ eff
  refine ⟨⟨t, ht, rfl⟩, ?_, ?_, ?_, ?_, ?_, ?_⟩
  · rw [ha1]
    simp only [updE_same, hel2, hel1]
  · intro i hi
    rw [ha1]
    simp only [updE]
    split_ifs with h2
    · exact absurd h2 hi
    · exact hel1 i
  · rw [ha4]
    exact hfree1
  · rw [ha7]
    exact hq1
  · rw [ha6]
    exact hchk1
  · intro hm
    refine applyEffects_milk _ eff ?_
    have hm1 := hmilk1 hm
    intro i
    simp only [updE]
    split_ifs with hi
    · exact Event.process_milkOk _ now step e' eff hpr (hm1 t.2.2)
    · exact hm1 i

/-- Facts about retirement: only the popped head's event is replaced (by its
finalized version), the reporter and collaborators are untouched. -/
theorem retire_spec (m : EventManager) (eid : ℕ) (m' : EventManager)
    (h : retire m eid = some m') :
    m'.reporter = m.reporter ∧ m'.baby = m.baby ∧ m'.draws = m.draws ∧
      m'.draw_idx = m.draw_idx ∧ m'.count = m.count ∧
      (∀ i, (heapTop m.event_queue).map (fun t => t.2.2) ≠ some i →
        m'.events i = m.events i) ∧
      (∀ i, (m'.events i).status = (m.events i).status ∨
        (m'.events i).status = EventStatus.PENDING) ∧
      (MilkInactive m → MilkInactive m') := by
  unfold retire at h
  split_ifs at h
  · split at h
    · exact absurd h (by simp)
    · rename_i t ht
      split at h
      · exact absurd h (by simp)
      · rename_i f hf
        obtain rfl := Option.some.inj h
        obtain ⟨-, hst, -, -⟩ := Event.finalize_spec _ _ hf
        refine ⟨rfl, rfl, rfl, rfl, rfl, ?_, ?_, ?_⟩
        · intro i hi
          rw [ht] at hi
          simp at hi
          simp only [updE]
          split_ifs with h2
          · exact absurd h2.symm hi
          · rfl
        · intro i
          simp only [updE]
          split_ifs with h2
          · right; exact hst
          · left; rfl
        · intro hm
          exact milkInactive_updE hm (Event.finalize_milkOk _ _ hf) _ rfl
  · obtain rfl := Option.some.inj h
    exact ⟨rfl, rfl, rfl, rfl, rfl, fun _ _ => rfl, fun _ => Or.inl rfl, fun hm => hm⟩

theorem keyLt_iff (a b : Entry) :
    keyLt a b = true ↔ (a.1 < b.1 ∨ (a.1 = b.1 ∧ a.2.1 < b.2.1)) := by
  simp [keyLt]

/-- `heapTop` returns an entry of the queue whose `(priority, count)` key is
lexicographically minimal. -/
theorem heapTop_min (q : List Entry) (hq : q ≠ []) :
    ∃ t, heapTop q = some t ∧ t ∈ q ∧
      ∀ e ∈ q, t.1 < e.1 ∨ (t.1 = e.1 ∧ t.2.1 ≤ e.2.1) := by
  induction q with
  | nil => exact absurd rfl hq
  | cons a rest ih =>
    by_cases hr : rest = []
    · subst hr
      refine ⟨a, by simp [heapTop], by simp, ?_⟩
      intro e he
      simp at he
      subst he
      right
      exact ⟨rfl, le_refl _⟩
    · obtain ⟨t, ht, htm, hmin⟩ := ih hr
      by_cases hlt : keyLt t a = true
      · refine ⟨t, ?_, List.mem_cons_of_mem _ htm, ?_⟩
        · simp only [heapTop, ht, if_pos hlt]
        · intro e he
          rcases List.mem_cons.mp he with rfl | he
          · rcases (keyLt_iff t e).mp hlt with h1 | ⟨h1, h2⟩
            · exact Or.inl h1
            · exact Or.inr ⟨h1, le_of_lt h2⟩
          · exact hmin e he
      · refine ⟨a, ?_, by simp, ?_⟩
        · simp only [heapTop, ht, if_neg hlt]
        · intro e he
          rcases List.mem_cons.mp he with rfl | he
          · right; exact ⟨rfl, le_refl _⟩
          · have h1 := hmin e he
            have h2 : ¬(t.1 < a.1 ∨ (t.1 = a.1 ∧ t.2.1 < a.2.1)) := by
              intro hc
              exact hlt ((keyLt_iff t a).mpr hc)
            rcases h1 with h1 | ⟨h1a, h1b⟩ <;> omega

/-- Facts about the full `_check_conditions` call. -/
theorem check_conditions_spec (m : EventManager) (now : Time) (step : ℤ)
    (m1 : EventManager) (flag : Bool)
    (h : check_conditions m now step = some (m1, flag)) :
    (∀ i, (m1.events i).time_elapsed = (m.events i).time_elapsed) ∧
      (flag = false → m1.reporter.freetime = m.reporter.freetime + step) ∧
      (flag = true → m1.reporter.freetime = m.reporter.freetime) ∧
      (flag = true → m1.event_queue ≠ []) ∧
      (MilkInactive m → MilkInactive m1) := by
  unfold check_conditions at h
  split at h
  · exact absurd h (by simp)
  · rename_i mS hS
    obtain ⟨hel, hrep, -, -, -, -, hmilk⟩ :=
      checkLoop_spec now m.events_to_check.length m 0 mS hS
    split_ifs at h with hq
    · obtain ⟨h1, h2⟩ := Prod.mk.injEq .. ▸ Option.some.inj h
      subst h2
      refine ⟨fun i => by rw [← h1]; exact hel i, ?_, by simp, by simp, ?_⟩
      · intro
        rw [← h1]
        simp [DailyReporter.update_freetime, hrep]
      · intro hm
        rw [← h1]
        exact hmilk hm
    · obtain ⟨h1, h2⟩ := Prod.mk.injEq .. ▸ Option.some.inj h
      subst h2
      refine ⟨fun i => by rw [← h1]; exact hel i, by simp, ?_, ?_, ?_⟩
      · intro
        rw [← h1, hrep]
      · intro
        rw [← h1]
        intro hnil
        exact hq (by rw [hnil]; rfl)
      · intro hm
        rw [← h1]
        exact hmilk hm

/-- Inversion of `_process_next_event`. -/
theorem process_next_event_inv (m : EventManager) (now : Time) (step : ℤ)
    (m' : EventManager) (h : process_next_event m now step = some m') :
    ∃ m2 eid, advanceHead m now step = some (m2, eid) ∧ retire m2 eid = some m' := by
  unfold process_next_event at h
  split at h
  · exact absurd h (by simp)
  · rename_i m2 eid ha
    exact ⟨m2, eid, ha, h⟩

/-- One scheduler tick preserves the milk-feeding invariant. -/
theorem process_milkInactive (m : EventManager) (now : Time) (step : ℤ)
    (m' : EventManager) (h : m.process now step = some m')
    (hm : MilkInactive m) : MilkInactive m' := by
  unfold EventManager.process at h
  rcases hc : check_conditions m now step with _ | ⟨m1, flag⟩ <;> rw [hc] at h
  · exact absurd h (by simp)
  · obtain ⟨-, -, -, -, hmilk1⟩ := check_conditions_spec m now step m1 flag hc
    cases flag
    · obtain rfl := Option.some.inj h
      exact hmilk1 hm
    · obtain ⟨m2, eid, ha, hr⟩ := process_next_event_inv m1 now step m' h
      obtain ⟨-, -, -, -, -, -, hmilk2⟩ := advanceHead_spec m1 now step m2 eid ha
      obtain ⟨-, -, -, -, -, -, -, hmilk3⟩ := retire_spec m2 eid m' hr
      exact hmilk3 (hmilk2 (hmilk1 hm))

/-- The whole driver loop preserves the milk-feeding invariant. -/
theorem runTicks_milkInactive (n : ℕ) :
    ∀ (m : EventManager) (now : Time) (step : ℤ) (m' : EventManager),
      runTicks m now step n = some m' → MilkInactive m → MilkInactive m' := by
  induction n with
  | zero =>
    intro m now step m' h hm
    obtain rfl := Option.some.inj h
    exact hm
  | succ n ih =>
    intro m now step m' h hm
    unfold runTicks at h
    split at h
    · exact absurd h (by simp)
    · rename_i mt hmt
      exact ih _ _ _ _ h (process_milkInactive m now step mt hmt hm)

/-- The initial configuration of `main()` satisfies the invariant: every
event starts `PENDING`. -/
theorem mainManager_milkInactive (draws : ℕ → ℤ) : MilkInactive (mainManager draws) := by
  intro i
  intro hk
  simp only [mainManager, add_event, List.foldl, updE] at hk ⊢
  split_ifs at hk ⊢ <;>
    simp_all [mkMeal, mkAirer, mkLaundry, mkMilkFeeding, mkSleep, defaultEvent]

/-- The preemption step when the head's type differs from the ongoing
event's type: pause the ongoing event, count one intervention. -/
theorem pausePrevious_diff (m : EventManager) (eid oid : ℕ)
    (ho : m.ongoing_event = some oid)
    (hk : (m.events eid).kind ≠ (m.events oid).kind)
    (m1 : EventManager) (h : pausePrevious m eid = some m1) :
    ∃ p, (m.events oid).pause = some p ∧
      m1 = { m with events := updE m.events oid p,
                    reporter := m.reporter.update_intervention } := by
  simp only [pausePrevious, ho] at h
  rw [if_pos hk] at h
  rcases hp : (m.events oid).pause with _ | p <;> rw [hp] at h
  · exact absurd h (by simp)
  · refine ⟨p, rfl, ?_⟩
    rw [ho]
    exact (Option.some.inj h).symm

/-- The preemption step when the head's type equals the ongoing event's
type: nothing happens. -/
theorem pausePrevious_same (m : EventManager) (eid oid : ℕ)
    (ho : m.ongoing_event = some oid)
    (hk : (m.events eid).kind = (m.events oid).kind)
    (m1 : EventManager) (h : pausePrevious m eid = some m1) : m1 = m := by
  simp only [pausePrevious, ho] at h
  rw [if_neg (by simp [hk])] at h
  exact (Option.some.inj h).symm

/-- `pause` always returns normally on a `RUNNING` event. -/
theorem Event.pause_total (e : Event) (hs : e.status = EventStatus.RUNNING) :
    ∃ p, e.pause = some p := by
  obtain ⟨kind, prio, status, el, p1, p2, p3, ns, sched, aid⟩ := e
  cases kind <;> simp [Event.pause] <;> simp_all

/-- C2 (amended): on every tick with a non-empty queue and a
previously-running event, preemption is decided by comparing Python types,
not identities.  When the head event's type (kind) differs from the
previously-running event's type, the scheduler pauses the previous event
and reports exactly one intervention: every pausable kind (all but milk
feeding) becomes PAUSED, while the milk feeding's pause is a no-op that
leaves its status unchanged.  When the head has the same type as the
previously-running event — in particular when it is the same activity — no
intervention is reported and no pause takes effect: a previous event
distinct from the head keeps its status unchanged, and a previous event
that was not already PAUSED (a previously-running event never is) is not
PAUSED afterwards. -/
theorem c2_preemption_is_by_type (m : EventManager) (now : Time) (step : ℤ)
    (oid : ℕ) (t : Entry)
    (ho : m.ongoing_event = some oid)
    (ht : heapTop m.event_queue = some t)
    (hsome : (process_next_event m now step).isSome = true) :
    ((m.events t.2.2).kind ≠ (m.events oid).kind →
      (process_next_event m now step).map (fun w => w.reporter.intervention_count)
          = some (m.reporter.intervention_count + 1) ∧
      ((m.events oid).kind ≠ EventKind.milkFeeding →
        (process_next_event m now step).map (fun w => (w.events oid).status)
            = some EventStatus.PAUSED) ∧
      ((m.events oid).kind = EventKind.milkFeeding →
        (process_next_event m now step).map (fun w => (w.events oid).status)
            = some (m.events oid).status)) ∧
    ((m.events t.2.2).kind = (m.events oid).kind →
      (process_next_event m now step).map (fun w => w.reporter.intervention_count)
          = some m.reporter.intervention_count ∧
      (oid ≠ t.2.2 →
        (process_next_event m now step).map (fun w => (w.events oid).status)
            = some (m.events oid).status) ∧
      ((m.events oid).status ≠ EventStatus.PAUSED →
        (process_next_event m now step).map (fun w => (w.events oid).status)
            ≠ some EventStatus.PAUSED)) := by
  rcases hpe : process_next_event m now step with _ | mf
  · rw [hpe] at hsome
    simp at hsome
  obtain ⟨m2, eid, ha, hret⟩ := process_next_event_inv m now step mf hpe
  obtain ⟨tt, htt, heid, m1, hp, e', eff, hpr, hm2⟩ := advanceHead_inv m now step m2 eid ha
  obtain rfl : t = tt := Option.some.inj (ht.symm.trans htt)
  subst heid
  obtain ⟨a1, a2, a3, a4, a5, a6, a7, a8, a9⟩ := applyEffects_spec
    { m1 with ongoing_event := some t.2.2, events := updE m1.events t.2.2 e' } eff
  rw [← hm2] at a1 a2 a3 a4 a5 a6 a7 a8 a9
  obtain ⟨hrRep, -, -, -, -, hrKeep, hrSt, -⟩ := retire_spec m2 t.2.2 mf hret
  have hq2 : m2.event_queue = m.event_queue := by
    rw [a7]
    have := pausePrevious_spec m t.2.2 m1 hp
    exact this.2.2.1
  constructor
  · intro hk
    have hneq : t.2.2 ≠ oid := by
      intro hcon
      rw [hcon] at hk
      exact hk rfl
    obtain ⟨p, hpp, hm1⟩ := pausePrevious_diff m t.2.2 oid ho hk m1 hp
    obtain ⟨-, -, hmilkp, hps⟩ := Event.pause_spec _ _ hpp
    have hkeep : mf.events oid = m2.events oid := by
      refine hrKeep oid ?_
      rw [hq2, ht]
      simp [hneq]
    have hstat2 : (m2.events oid).status = p.status := by
      rw [a2 oid]
      show (updE m1.events t.2.2 e' oid).status = p.status
      rw [updE_other _ _ _ _ (fun hcc => hneq hcc.symm)]
      rw [hm1]
      show (updE m.events oid p oid).status = p.status
      rw [updE_same]
    refine ⟨?_, ?_, ?_⟩
    · simp only [Option.map_some', Option.some.injEq]
      rw [hrRep, a5, hm1]
      rfl
    · intro hmilk
      simp only [Option.map_some', Option.some.injEq]
      rw [hkeep, hstat2]
      exact (hps hmilk).2
    · intro hmilk
      simp only [Option.map_some', Option.some.injEq]
      rw [hkeep, hstat2, hmilkp hmilk]
  · intro hk
    obtain rfl := pausePrevious_same m t.2.2 oid ho hk m1 hp
    have huntouched : oid ≠ t.2.2 → (mf.events oid).status = (m1.events oid).status := by
      intro hoe
      have hkeep : mf.events oid = m2.events oid := by
        refine hrKeep oid ?_
        rw [hq2, ht]
        simp
        exact fun hcc => hoe hcc.symm
      rw [hkeep, a2 oid]
      show (updE m1.events t.2.2 e' oid).status = (m1.events oid).status
      rw [updE_other _ _ _ _ hoe]
    refine ⟨?_, ?_, ?_⟩
    · simp only [Option.map_some', Option.some.injEq]
      rw [hrRep, a5]
    · intro hoe
      simp only [Option.map_some', Option.some.injEq]
      exact huntouched hoe
    · intro hnp
      simp only [Option.map_some']
      intro hcon
      have hstat := Option.some.inj hcon
      by_cases hoe : oid = t.2.2
      · rw [hoe] at hstat hnp
        rcases hrSt t.2.2 with hs | hs
        · have hs2 : e'.status = EventStatus.PAUSED := by
            have h3 : (m2.events t.2.2).status = e'.status := by
              rw [a2 t.2.2]
              show (updE m1.events t.2.2 e' t.2.2).status = _
              rw [updE_same]
            rw [← h3, ← hs]
            exact hstat
          obtain ⟨-, -, hnmp, hmp⟩ := Event.process_spec _ now step e' eff hpr
          by_cases hmk : (m1.events t.2.2).kind = EventKind.milkFeeding
          · rcases hmp hmk with h1 | h1 <;> rw [hs2] at h1
            · exact hnp h1.symm
            · exact absurd h1 (by simp)
          · rcases hnmp hmk with h1 | h1 <;> rw [hs2] at h1 <;>
              exact absurd h1 (by simp)
        · rw [hstat] at hs
          exact absurd hs (by simp)
      · exact hnp ((huntouched hoe).symm.trans hstat)

/-- C3: every successfully processed tick either reports exactly one step of
free time and advances no event's elapsed time (empty queue after the
sweep), or reports no free time and advances exactly one event's elapsed
time by exactly one step (non-empty queue). -/
theorem c3_tick_time_budget (m : EventManager) (now : Time) (step : ℤ)
    (hsome : (m.process now step).isSome = true) :
    ((check_conditions m now step).map Prod.snd = some false ∧
      (m.process now step).map (fun w => w.reporter.freetime)
        = some (m.reporter.freetime + step) ∧
      ∀ i, (m.process now step).map (fun w => (w.events i).time_elapsed)
        = some ((m.events i).time_elapsed)) ∨
    ((check_conditions m now step).map Prod.snd = some true ∧
      (m.process now step).map (fun w => w.reporter.freetime)
        = some m.reporter.freetime ∧
      ∃ m1 m2 eid,
        check_conditions m now step = some (m1, true) ∧
        advanceHead m1 now step = some (m2, eid) ∧
        (∀ i, (m1.events i).time_elapsed = (m.events i).time_elapsed) ∧
        (m2.events eid).time_elapsed = (m1.events eid).time_elapsed + step ∧
        ∀ i, i ≠ eid → (m2.events i).time_elapsed = (m1.events i).time_elapsed) := by
  rcases hpe : m.process now step with _ | mf
  · rw [hpe] at hsome
    simp at hsome
  have hpe2 := hpe
  unfold EventManager.process at hpe2
  rcases hc : check_conditions m now step with _ | ⟨m1, flag⟩ <;> rw [hc] at hpe2
  · exact absurd hpe2 (by simp)
  obtain ⟨hel, hfreeF, hfreeT, -, -⟩ := check_conditions_spec m now step m1 flag hc
  cases flag
  · left
    obtain rfl := Option.some.inj hpe2
    refine ⟨rfl, ?_, ?_⟩
    · simp only [Option.map_some', Option.some.injEq]
      exact hfreeF rfl
    · intro i
      simp only [Option.map_some', Option.some.injEq]
      exact hel i
  · right
    obtain ⟨m2, eid, ha, hret⟩ := process_next_event_inv m1 now step mf hpe2
    obtain ⟨-, haEid, haOther, haFree, -, -, -⟩ := advanceHead_spec m1 now step m2 eid ha
    obtain ⟨hrRep, -, -, -, -, -, -, -⟩ := retire_spec m2 eid mf hret
    refine ⟨rfl, ?_, m1, m2, eid, rfl, ha, hel, haEid, haOther⟩
    simp only [Option.map_some', Option.some.injEq]
    rw [hrRep, haFree]
    exact hfreeT rfl

/-- C4: the scheduler always selects from the ready queue an entry whose
`(priority, admission sequence)` key is lexicographically minimal — smallest
priority number first, and among equal priorities the smallest (earliest)
admission sequence number — and `_process_next_event` processes exactly
that entry's event. -/
theorem c4_queue_selection_minimal :
    (∀ q : List Entry, q ≠ [] →
      ∃ t, heapTop q = some t ∧ t ∈ q ∧
        ∀ e ∈ q, t.1 < e.1 ∨ (t.1 = e.1 ∧ t.2.1 ≤ e.2.1)) ∧
    (∀ (m : EventManager) (now : Time) (step : ℤ) (x : EventManager × ℕ),
      advanceHead m now step = some x →
      (heapTop m.event_queue).map (fun t => t.2.2) = some x.2) := by
  refine ⟨heapTop_min, ?_⟩
  intro m now step x h
  obtain ⟨m2, eid⟩ := x
  obtain ⟨t, ht, rfl, -⟩ := advanceHead_inv m now step m2 eid h
  rw [ht]
  rfl

/-- C5: pausing a running activity preserves its elapsed progress; for the
pausable kinds (all but milk feeding) it changes only the status, to PAUSED
(milk feeding's pause is a no-op by contract), and the next process call on
the paused activity increments elapsed progress from exactly the value it
had when paused, never from zero.  Moreover every scheduler tick preserves
the invariant that milk-feeding events are never RUNNING or PAUSED, so the
pausable-kind proviso never bites: a milk feeding is never running. -/
theorem c5_preemption_keeps_progress :
    (∀ e : Event, e.status = EventStatus.RUNNING →
      ∃ p, e.pause = some p ∧ p.time_elapsed = e.time_elapsed ∧
        (e.kind ≠ EventKind.milkFeeding → p.status = EventStatus.PAUSED) ∧
        (e.kind = EventKind.milkFeeding → p = e) ∧
        ∀ (now : Time) (step : ℤ) (e' : Event) (eff : Effects),
          p.process now step = some (e', eff) →
          e'.time_elapsed = e.time_elapsed + step) ∧
    (∀ (m : EventManager) (now : Time) (step : ℤ) (m' : EventManager),
      m.process now step = some m' → MilkInactive m → MilkInactive m') := by
  constructor
  · intro e hs
    obtain ⟨p, hp⟩ := Event.pause_total e hs
    obtain ⟨hel, hkind, hmilk, hother⟩ := Event.pause_spec e p hp
    refine ⟨p, hp, hel, fun hk => (hother hk).2, hmilk, ?_⟩
    intro now step e' eff hpr
    obtain ⟨hel2, -, -, -⟩ := Event.process_spec p now step e' eff hpr
    rw [hel2, hel]
  · exact fun m now step m' h hm => process_milkInactive m now step m' h hm

/-- C6: for every activity, a finalize() that returns leaves elapsed
progress exactly zero and status PENDING (and finalize always returns
normally from COMPLETED); for every daily-scheduled activity it also
advances the next-due timestamp by exactly one calendar day, independently
of the activity's duration and of its elapsed history. -/
theorem c6_finalize_resets_and_advances_day (e : Event) :
    (e.status = EventStatus.COMPLETED → (Event.finalize e).isSome = true) ∧
    (∀ f, Event.finalize e = some f →
      f.time_elapsed = 0 ∧ f.status = EventStatus.PENDING ∧
        (e.kind.isDaily = true → f.next_schedule = e.next_schedule + 24 * 60)) := by
  constructor
  · intro hs
    obtain ⟨kind, prio, status, el, p1, p2, p3, ns, sched, aid⟩ := e
    cases kind <;> simp [Event.finalize] <;> simp_all
  · intro f hf
    obtain ⟨h1, h2, -, h4⟩ := Event.finalize_spec e f hf
    exact ⟨h1, h2, h4⟩

/-- C7: the airer's causal trigger.  While un-armed (schedule `None`, as at
construction and again after finalize disarms it) `is_ready` returns false
for every `now`; when a laundry run completes, its process call arms the
airer it references with timestamp `now + step + 120` (the washing
duration), which effects application writes into the airer's schedule; once
armed with `T`, `is_ready` returns true exactly when `now ≥ T` and false
for every `now < T`. -/
theorem c7_causal_trigger :
    (∀ (e : Event) (b : Baby) (now : Time), e.kind = EventKind.airer →
      e.status = EventStatus.PENDING → e.schedule = none →
      e.is_ready b now = some (e, false)) ∧
    (∀ (e : Event) (b : Baby) (now T : Time), e.kind = EventKind.airer →
      e.status = EventStatus.PENDING → e.schedule = some T →
      (T ≤ now → e.is_ready b now = some ({ e with status := EventStatus.READY }, true)) ∧
      (¬T ≤ now → e.is_ready b now = some (e, false))) ∧
    (∀ (e : Event) (now : Time) (step : ℤ), e.kind = EventKind.laundry →
      statusProcessable e.status = true → e.time_elapsed + step = 10 →
      e.time_elapsed ≠ 0 →
      e.process now step =
        some ({ e with time_elapsed := 10, status := EventStatus.COMPLETED },
          { arm_airer := some (e.airer_event, now + step + 120),
            baby_fed_at := none, feeding_reported := false })) ∧
    (∀ (m : EventManager) (eff : Effects) (aid : ℕ) (T : Time),
      eff.arm_airer = some (aid, T) →
      ((applyEffects m eff).events aid).schedule = some T) ∧
    (∀ e f : Event, e.kind = EventKind.airer → Event.finalize e = some f →
      f.schedule = none) := by
  refine ⟨?_, ?_, ?_, ?_, ?_⟩
  · intro e b now hk hs hsch
    obtain ⟨kind, prio, status, el, p1, p2, p3, ns, sched, aid⟩ := e
    simp_all [Event.is_ready]
  · intro e b now T hk hs hsch
    obtain ⟨kind, prio, status, el, p1, p2, p3, ns, sched, aid⟩ := e
    simp only at hk hs hsch
    subst hk
    subst hs
    subst hsch
    constructor <;> intro h <;> simp [Event.is_ready, h]
  · intro e now step hk hs hel hnz
    obtain ⟨kind, prio, status, el, p1, p2, p3, ns, sched, aid⟩ := e
    simp only at hk
    subst hk
    simp only at hel hnz ⊢
    simp only [Event.process, hs, if_true, if_pos]
    rw [if_pos ⟨hel, by omega⟩, hel]
  · intro m eff aid T harm
    obtain ⟨arm, fed, rep⟩ := eff
    simp only at harm
    subst harm
    rcases fed with _ | t <;> cases rep <;>
      simp [applyEffects, updE]
  · intro e f hk hf
    obtain ⟨kind, prio, status, el, p1, p2, p3, ns, sched, aid⟩ := e
    simp only at hk
    subst hk
    simp only [Event.finalize] at hf
    split_ifs at hf <;> simp at hf <;> subst hf <;> rfl

/-- C8 (amended): for every activity other than the milk feeding, calling
pause when the status is not RUNNING, or finalize when the status is not
COMPLETED, fails the assertion (modelled as `none`) rather than returning;
the milk feeding is the exception: its pause is an unconditional no-op and
its finalize unconditionally resets the state to PENDING with zero elapsed
progress, from any status. -/
theorem c8_wrong_state_is_fatal_except_milk (e : Event) :
    (e.kind ≠ EventKind.milkFeeding →
      (e.status ≠ EventStatus.RUNNING → e.pause = none) ∧
      (e.status ≠ EventStatus.COMPLETED → e.finalize = none)) ∧
    (e.kind = EventKind.milkFeeding →
      e.pause = some e ∧
      e.finalize = some { e with status := EventStatus.PENDING, time_elapsed := 0 }) := by
  obtain ⟨kind, prio, status, el, p1, p2, p3, ns, sched, aid⟩ := e
  cases kind <;>
    refine ⟨fun hne => ⟨fun hs => ?_, fun hs => ?_⟩, fun hk => ?_⟩ <;>
    simp_all [Event.pause, Event.finalize]

/-- C9: the stochastic hunger trigger.  At construction and on every
feeding a fresh drawn interval is stored together with the feeding time;
`is_hungry(now)` is true exactly when `now - last_fed ≥ interval`; the draw
is stored without clamping, so with a negative drawn interval the baby is
hungry at every `now` at or after the feeding time; the milk feeding's
process call feeds the baby at `now + step` exactly on its final step, and
effects application then stores the next oracle draw with that time. -/
theorem c9_hunger_model :
    (∀ (t : Time) (d : ℤ), mkBaby t d = { last_fed := t, interval := d }) ∧
    (∀ (b : Baby) (t : Time) (d : ℤ), b.fed t d = { last_fed := t, interval := d }) ∧
    (∀ (b : Baby) (now : Time), b.is_hungry now = true ↔ b.interval ≤ now - b.last_fed) ∧
    (∀ (b : Baby) (now : Time), b.interval < 0 → b.last_fed ≤ now →
      b.is_hungry now = true) ∧
    (∀ (e : Event) (now : Time) (step : ℤ), e.kind = EventKind.milkFeeding →
      e.time_elapsed + step = 10 + 30 + 5 →
      (e.process now step).map (fun p => p.2.baby_fed_at) = some (some (now + step))) ∧
    (∀ (m : EventManager) (eff : Effects) (t : Time), eff.baby_fed_at = some t →
      (applyEffects m eff).baby = m.baby.fed t (m.draws m.draw_idx) ∧
      (applyEffects m eff).draw_idx = m.draw_idx + 1) := by
  refine ⟨fun t d => rfl, fun b t d => rfl, ?_, ?_, ?_, ?_⟩
  · intro b now
    simp [Baby.is_hungry, ge_iff_le]
  · intro b now h1 h2
    simp only [Baby.is_hungry, ge_iff_le, decide_eq_true_eq]
    linarith
  · intro e now step hk hel
    obtain ⟨kind, prio, status, el, p1, p2, p3, ns, sched, aid⟩ := e
    simp only at hk
    subst hk
    simp only at hel
    simp [Event.process, hel]
  · intro m eff t hfed
    obtain ⟨arm, fed, rep⟩ := eff
    simp only at hfed
    subst hfed
    rcases arm with _ | ⟨aid, sched⟩ <;> cases rep <;>
      simp [applyEffects, Baby.fed, DailyReporter.update_feeding]

/-- C10: the milk-feeding activity bypasses RUNNING and PAUSED: its
is_ready succeeds from any status (no PENDING assertion) and sets READY
exactly when the baby is hungry; its process advances elapsed time and
changes the status only on the final step (to COMPLETED), leaving it READY
mid-run; its pause is a no-op; and in every run of the driver loop from the
main() configuration no milk-feeding event is ever RUNNING or PAUSED. -/
theorem c10_milk_bypasses_running :
    (∀ (e : Event) (b : Baby) (now : Time), e.kind = EventKind.milkFeeding →
      (b.is_hungry now = true →
        e.is_ready b now = some ({ e with status := EventStatus.READY }, true)) ∧
      (b.is_hungry now = false → e.is_ready b now = some (e, false))) ∧
    (∀ (e : Event) (now : Time) (step : ℤ), e.kind = EventKind.milkFeeding →
      (e.process now step).map (fun p => (p.1.status, p.1.time_elapsed)) =
        some (if e.time_elapsed + step = 10 + 30 + 5 then EventStatus.COMPLETED
              else e.status, e.time_elapsed + step)) ∧
    (∀ e : Event, e.kind = EventKind.milkFeeding → e.pause = some e) ∧
    (∀ (draws : ℕ → ℤ) (now : Time) (step : ℤ) (n : ℕ) (m' : EventManager),
      runTicks (mainManager draws) now step n = some m' →
      ∀ i, (m'.events i).kind = EventKind.milkFeeding →
        (m'.events i).status ≠ EventStatus.RUNNING ∧
        (m'.events i).status ≠ EventStatus.PAUSED) := by
  refine ⟨?_, ?_, ?_, ?_⟩
  · intro e b now hk
    obtain ⟨kind, prio, status, el, p1, p2, p3, ns, sched, aid⟩ := e
    simp only at hk
    subst hk
    constructor <;> intro hh <;> simp [Event.is_ready, hh]
  · intro e now step hk
    obtain ⟨kind, prio, status, el, p1, p2, p3, ns, sched, aid⟩ := e
    simp only at hk
    subst hk
    simp [Event.process]
  · intro e hk
    obtain ⟨kind, prio, status, el, p1, p2, p3, ns, sched, aid⟩ := e
    simp only at hk
    subst hk
    simp [Event.pause]
  · intro draws now step n m' h i hk
    exact runTicks_milkInactive n (mainManager draws) now step m' h
      (mainManager_milkInactive draws) i hk

/-- A manager holding two meal events that are both already due, with
nothing queued: ids 0 and 1, both `PENDING`, both with `next_schedule = 0`.
The baby is not hungry. -/
def twoReadyMeals : EventManager :=
  { count := 0, events_to_check := [0, 1], event_queue := [], ongoing_event := none,
    events := fun j =>
      if j = 0 then mkMeal 0 5 15 10 10
      else if j = 1 then mkMeal 0 5 30 15 10
      else defaultEvent,
    baby := { last_fed := 0, interval := 100 },
    reporter := DailyReporter.init, draws := fun _ => 0, draw_idx := 0 }

/-- C1 (code bug): `_check_conditions` removes a ready event from
`_events_to_check` while a `for` loop is iterating over that same list by
index, so the event that slides into the removed slot is skipped on that
tick.  Concretely, with both meals due at tick `now = 0`: meal 1 reports
ready when asked, yet after the tick it is still in the waiting list with
status `PENDING` (its `is_ready` was never called) and only meal 0 was
admitted to the queue. -/
theorem c1_readiness_sweep_skips_shifted_event :
    ((twoReadyMeals.events 1).is_ready twoReadyMeals.baby 0).map Prod.snd = some true ∧
    (twoReadyMeals.process 0 1).map (fun w => w.events_to_check) = some [1] ∧
    (twoReadyMeals.process 0 1).map (fun w => (w.events 1).status)
      = some EventStatus.PENDING ∧
    (twoReadyMeals.process 0 1).map (fun w => w.event_queue) = some [(5, 0, 0)] := by
  decide

/-- A manager in which meal 0 (priority 5, admitted first) is the running
event and meal 1 — a different activity of the same Python type, with the
better priority 3 — has just been admitted and is the queue head. -/
def mealPreemptsMeal : EventManager :=
  { count := 2, events_to_check := [],
    event_queue := [(5, 0, 0), (3, 1, 1)], ongoing_event := some 0,
    events := fun j =>
      if j = 0 then { mkMeal 0 5 15 10 10 with
                      status := EventStatus.RUNNING, time_elapsed := 3 }
      else if j = 1 then { mkMeal 0 3 30 15 10 with status := EventStatus.READY }
      else defaultEvent,
    baby := { last_fed := 0, interval := 100 },
    reporter := DailyReporter.init, draws := fun _ => 0, draw_idx := 0 }

/-- C2 counterexample: the head of the queue (meal 1) is a different
activity from the previously-running one (meal 0), yet the tick pauses
nothing and reports no intervention, because `_process_next_event` compares
`type(event)` rather than the activities themselves: after the tick the
intervention count is still 0 and meal 0 is still `RUNNING`, not
`PAUSED`. -/
theorem c2_counterexample :
    mealPreemptsMeal.ongoing_event = some 0 ∧
    (heapTop mealPreemptsMeal.event_queue).map (fun t => t.2.2) = some 1 ∧
    (1 : ℕ) ≠ 0 ∧
    (mealPreemptsMeal.events 0).status = EventStatus.RUNNING ∧
    (process_next_event mealPreemptsMeal 0 1).map
      (fun w => w.reporter.intervention_count) = some 0 ∧
    (process_next_event mealPreemptsMeal 0 1).map (fun w => (w.events 0).status)
      = some EventStatus.RUNNING := by
  decide

/-- A manager in which meal 0 is running and the milk feeding — an activity
of a different type, priority 0 — has just been admitted and is the queue
head. -/
def milkPreemptsMeal : EventManager :=
  { count := 2, events_to_check := [],
    event_queue := [(5, 0, 0), (0, 1, 1)], ongoing_event := some 0,
    events := fun j =>
      if j = 0 then { mkMeal 0 5 15 10 10 with
                      status := EventStatus.RUNNING, time_elapsed := 3 }
      else if j = 1 then { mkMilkFeeding with status := EventStatus.READY }
      else defaultEvent,
    baby := { last_fed := 0, interval := 0 },
    reporter := DailyReporter.init, draws := fun _ => 0, draw_idx := 0 }

/-- A manager mid-way through a milk-feeding run: the milk feeding is both
the queue head and the ongoing event, with status READY (it is never
RUNNING). -/
def milkMidRun : EventManager :=
  { count := 1, events_to_check := [],
    event_queue := [(0, 0, 1)], ongoing_event := some 1,
    events := fun j =>
      if j = 1 then { mkMilkFeeding with status := EventStatus.READY, time_elapsed := 5 }
      else defaultEvent,
    baby := { last_fed := 0, interval := 0 },
    reporter := DailyReporter.init, draws := fun _ => 0, draw_idx := 0 }

theorem c2_witness :
    milkPreemptsMeal.ongoing_event = some 0 ∧
    heapTop milkPreemptsMeal.event_queue = some (0, 1, 1) ∧
    (process_next_event milkPreemptsMeal 0 1).isSome = true ∧
    (process_next_event milkPreemptsMeal 0 1).map
      (fun w => w.reporter.intervention_count) = some 1 ∧
    (process_next_event milkPreemptsMeal 0 1).map (fun w => (w.events 0).status)
      = some EventStatus.PAUSED ∧
    milkMidRun.ongoing_event = some 1 ∧
    heapTop milkMidRun.event_queue = some (0, 0, 1) ∧
    (process_next_event milkMidRun 0 1).isSome = true ∧
    (process_next_event milkMidRun 0 1).map
      (fun w => w.reporter.intervention_count) = some 0 ∧
    (process_next_event milkMidRun 0 1).map (fun w => (w.events 1).status)
      ≠ some EventStatus.PAUSED := by
  refine ⟨by decide, by decide, by decide, ?_, ?_, by decide, by decide, by decide,
    ?_, ?_⟩
  · exact ((c2_preemption_is_by_type milkPreemptsMeal 0 1 0 (0, 1, 1)
      (by decide) (by decide) (by decide)).1 (by decide)).1
  · exact ((c2_preemption_is_by_type milkPreemptsMeal 0 1 0 (0, 1, 1)
      (by decide) (by decide) (by decide)).1 (by decide)).2.1 (by decide)
  · exact ((c2_preemption_is_by_type milkMidRun 0 1 1 (0, 0, 1)
      (by decide) (by decide) (by decide)).2 (by decide)).1
  · exact ((c2_preemption_is_by_type milkMidRun 0 1 1 (0, 0, 1)
      (by decide) (by decide) (by decide)).2 (by decide)).2.2 (by decide)

theorem c3_witness :
    (twoReadyMeals.process 0 1).isSome = true ∧
    (twoReadyMeals.process 0 1).map (fun w => w.reporter.freetime)
      = some twoReadyMeals.reporter.freetime := by
  refine ⟨by decide, ?_⟩
  rcases c3_tick_time_budget twoReadyMeals 0 1 (by decide) with h | h
  · exact absurd h.1 (by decide)
  · exact h.2.1

/-- Three queue entries: two with priority 5 (admitted at sequence numbers
0 and 1) and one with priority 0 admitted last. -/
def sampleQueue : List Entry :=
  [(5, 1, 0), (0, 2, 1), (5, 0, 2)]

theorem c4_witness :
    sampleQueue ≠ [] ∧
    ∃ t, heapTop sampleQueue = some t ∧ t ∈ sampleQueue ∧
      ∀ e ∈ sampleQueue, t.1 < e.1 ∨ (t.1 = e.1 ∧ t.2.1 ≤ e.2.1) :=
  ⟨by decide, c4_queue_selection_minimal.1 sampleQueue (by decide)⟩

/-- A meal event mid-run. -/
def runningMeal : Event :=
  { mkMeal 0 5 15 10 10 with status := EventStatus.RUNNING, time_elapsed := 7 }

theorem c5_witness :
    runningMeal.status = EventStatus.RUNNING ∧
    ∃ p, runningMeal.pause = some p ∧ p.time_elapsed = 7 := by
  refine ⟨by decide, ?_⟩
  obtain ⟨p, hp, hel, -, -, -⟩ :=
    c5_preemption_keeps_progress.1 runningMeal (by decide)
  exact ⟨p, hp, by rw [hel]; rfl⟩

/-- A meal event that has just completed its 35-minute run. -/
def completedMeal : Event :=
  { mkMeal 480 5 15 10 10 with status := EventStatus.COMPLETED, time_elapsed := 35 }

/-- The state `finalize` leaves `completedMeal` in. -/
def finalizedMeal : Event :=
  { completedMeal with status := EventStatus.PENDING, time_elapsed := 0,
                       next_schedule := 480 + 24 * 60 }

theorem c6_witness :
    completedMeal.status = EventStatus.COMPLETED ∧
    Event.finalize completedMeal = some finalizedMeal ∧
    (finalizedMeal.time_elapsed = 0 ∧ finalizedMeal.status = EventStatus.PENDING ∧
      (completedMeal.kind.isDaily = true →
        finalizedMeal.next_schedule = completedMeal.next_schedule + 24 * 60)) :=
  ⟨by decide, by decide,
    (c6_finalize_resets_and_advances_day completedMeal).2 finalizedMeal (by decide)⟩

/-- An airer armed for timestamp 100. -/
def armedAirer : Event :=
  { mkAirer with schedule := some 100 }

theorem c7_witness :
    armedAirer.kind = EventKind.airer ∧
    armedAirer.status = EventStatus.PENDING ∧
    armedAirer.schedule = some 100 ∧
    (100 : Time) ≤ 100 ∧
    armedAirer.is_ready { last_fed := 0, interval := 0 } 100
      = some ({ armedAirer with status := EventStatus.READY }, true) :=
  ⟨by decide, by decide, by decide, by decide,
    (c7_causal_trigger.2.1 armedAirer { last_fed := 0, interval := 0 } 100 100
      (by decide) (by decide) (by decide)).1 (by decide)⟩

/-- C8 counterexample: the milk feeding's state-transition methods do not
fail from a wrong state.  `pause` on a non-`RUNNING` milk feeding returns
normally and changes nothing, and `finalize` on a non-`COMPLETED` milk
feeding (here `READY` with elapsed 7) returns normally and silently repairs
the state to `PENDING` with elapsed 0. -/
theorem c8_counterexample :
    ({ mkMilkFeeding with status := EventStatus.READY } : Event).status
        ≠ EventStatus.RUNNING ∧
    Event.pause { mkMilkFeeding with status := EventStatus.READY }
      = some { mkMilkFeeding with status := EventStatus.READY } ∧
    ({ mkMilkFeeding with status := EventStatus.READY, time_elapsed := 7 } :
        Event).status ≠ EventStatus.COMPLETED ∧
    Event.finalize { mkMilkFeeding with status := EventStatus.READY, time_elapsed := 7 }
      = some mkMilkFeeding := by
  decide

theorem c8_witness :
    mkAirer.kind ≠ EventKind.milkFeeding ∧
    mkAirer.status ≠ EventStatus.RUNNING ∧ mkAirer.pause = none ∧
    mkAirer.status ≠ EventStatus.COMPLETED ∧ mkAirer.finalize = none :=
  ⟨by decide, by decide,
    ((c8_wrong_state_is_fatal_except_milk mkAirer).1 (by decide)).1 (by decide),
    by decide,
    ((c8_wrong_state_is_fatal_except_milk mkAirer).1 (by decide)).2 (by decide)⟩

/-- A baby whose last draw came out negative. -/
def starvedBaby : Baby :=
  { last_fed := 50, interval := -3 }

theorem c9_witness :
    starvedBaby.interval < 0 ∧ starvedBaby.last_fed ≤ 50 ∧
    starvedBaby.is_hungry 50 = true :=
  ⟨by decide, by decide,
    c9_hunger_model.2.2.2.1 starvedBaby 50 (by decide) (by decide)⟩

theorem c10_witness :
    runTicks (mainManager (fun _ => 0)) 420 1 0 = some (mainManager (fun _ => 0)) ∧
    ((mainManager (fun _ => 0)).events 5).kind = EventKind.milkFeeding ∧
    ((mainManager (fun _ => 0)).events 5).status ≠ EventStatus.RUNNING ∧
    ((mainManager (fun _ => 0)).events 5).status ≠ EventStatus.PAUSED := by
  refine ⟨rfl, by decide, ?_, ?_⟩
  · exact (c10_milk_bypasses_running.2.2.2 (fun _ => 0) 420 1 0
      (mainManager (fun _ => 0)) rfl 5 (by decide)).1
  · exact (c10_milk_bypasses_running.2.2.2 (fun _ => 0) 420 1 0
      (mainManager (fun _ => 0)) rfl 5 (by decide)).2

end Babycare
